import Mathlib

/-!
Shallow embedding of the quantitative analytics engine of the `argent`
financial-dashboard repository, together with proofs settling the frozen
claims about its specification.

Numbers are modelled as exact rationals (`ℚ`); JavaScript's `Math.sqrt` is
abstracted as an explicit square-root parameter where it occurs, so that
every definition stays executable.  Sources embedded here:

* `src/frontend/src/hooks/usePriceHistory.ts` — `calculateSMA`,
  `calculateEMA`, `calculateRSI`, `calculateMACD`, `calculateEMAForSeries`,
  `generateIndicatorSeries`, `generateRSISeries`.
* `src/frontend/src/hooks/usePortfolio.test.ts` (trailing `useBacktest`
  module) — `calculateDrawdownSeries`, `calculateRollingMetrics`,
  `analyzeTradeDistribution`, `compareBacktestMetrics`.
* `src/unnamed/part_007` (`usePortfolio`) — `calculatePortfolioMetrics`,
  `calculateDiversificationScore`.
-/

namespace Argent

/-- `PriceBar` from `src/frontend/src/api/types.ts`: one OHLCV bar. -/
structure PriceBar where
  timestamp : String
  open_ : ℚ
  high : ℚ
  low : ℚ
  close : ℚ
  volume : ℕ
deriving DecidableEq, Inhabited

/-- JavaScript `timestamp.split('T')[0]`: the date part of an ISO timestamp. -/
def dateOf (s : String) : String :=
  (s.splitOn ("T")).headD ("")

/-- JavaScript `array.reduce((a, b) => a + b, 0)`. -/
def sumList (l : List ℚ) : ℚ :=
  l.foldl (· + ·) 0

/-- `calculateSMA(data, period)`: mean of the last `period` values, absent if
fewer than `period` values are supplied. -/
def calculateSMA (data : List ℚ) (period : ℕ) : Option ℚ :=
  if data.length < period then none
  else some (sumList (data.drop (data.length - period)) / period)

/-- One step of the EMA recurrence `ema = (x - ema) * multiplier + ema`. -/
def emaStep (multiplier : ℚ) (ema x : ℚ) : ℚ :=
  (x - ema) * multiplier + ema

/-- `calculateEMA(data, period)`: seed with the mean of the first `period`
values, then walk the exponential recurrence over the rest. -/
def calculateEMA (data : List ℚ) (period : ℕ) : Option ℚ :=
  if data.length < period then none
  else some ((data.drop period).foldl (emaStep (2 / (period + 1)))
      (sumList (data.take period) / period))

/-- Consecutive differences `data[i] - data[i-1]` of a list. -/
def diffs (data : List ℚ) : List ℚ :=
  (data.zip data.tail).map fun p => p.2 - p.1

/-- Accumulation of total gains and losses over the first `period` changes
(the seeding loop of `calculateRSI` / `generateRSISeries`). -/
def rsiSeedStep (gl : ℚ × ℚ) (change : ℚ) : ℚ × ℚ :=
  if 0 < change then (gl.1 + change, gl.2) else (gl.1, gl.2 - change)

/-- One step of Wilder smoothing of `(avgGain, avgLoss)` by the next change. -/
def wilderStep (period : ℕ) (gl : ℚ × ℚ) (change : ℚ) : ℚ × ℚ :=
  if 0 < change then
    ((gl.1 * (period - 1) + change) / period, gl.2 * (period - 1) / period)
  else
    (gl.1 * (period - 1) / period, (gl.2 * (period - 1) - change) / period)

/-- The `(avgGain, avgLoss)` state reached by `calculateRSI` after consuming
the whole close series: seed averages over the first `period` changes, then
Wilder smoothing over the remaining changes. -/
def rsiAvgs (data : List ℚ) (period : ℕ) : ℚ × ℚ :=
  let seed := ((diffs data).take period).foldl rsiSeedStep (0, 0)
  ((diffs data).drop period).foldl (wilderStep period)
    (seed.1 / period, seed.2 / period)

/-- `calculateRSI(data, period)`: Wilder RSI of the latest bar; `avgLoss == 0`
short-circuits to `100`. -/
def calculateRSI (data : List ℚ) (period : ℕ) : Option ℚ :=
  if data.length < period + 1 then none
  else
    let avg := rsiAvgs data period
    if avg.2 = 0 then some 100
    else some (100 - 100 / (1 + avg.1 / avg.2))

/-- Result record of `calculateMACD`. -/
structure MACDResult where
  macd : ℚ
  signal : ℚ
  histogram : ℚ
deriving DecidableEq

/-- The loop of `calculateMACD` building the MACD line values: walk the
running 12- and 26-period EMAs over the closes past index 25, emitting their
difference at each step. -/
def macdWalk (ema12 ema26 : ℚ) : List ℚ → List ℚ
  | [] => []
  | x :: rest =>
    let e12 := emaStep (2 / 13) ema12 x
    let e26 := emaStep (2 / 27) ema26 x
    (e12 - e26) :: macdWalk e12 e26 rest

/-- `calculateMACD(data)`: 12/26 EMA difference with a 9-period signal EMA of
the MACD values; `calculateEMA(macdValues, 9) || macdLine` falls back to the
MACD line when the signal EMA is absent (or zero, JavaScript falsiness). -/
def calculateMACD (data : List ℚ) : Option MACDResult :=
  match calculateEMA data 12, calculateEMA data 26 with
  | some e12, some e26 =>
    let macdValues := macdWalk (sumList (data.take 12) / 12)
      (sumList (data.take 26) / 26) (data.drop 26)
    let macdLine := e12 - e26
    let signalLine :=
      match calculateEMA macdValues 9 with
      | none => macdLine
      | some v => if v = 0 then macdLine else v
    some ⟨macdLine, signalLine, macdLine - signalLine⟩
  | _, _ => none

/-- A `{time, value}` chart point emitted by the series generators. -/
structure SeriesPoint where
  time : String
  value : ℚ
deriving DecidableEq, Inhabited

/-- The two indicator kinds accepted by `generateIndicatorSeries`. -/
inductive IndicatorType
  | sma
  | ema
deriving DecidableEq

/-- `calculateEMAForSeries(data, period)`: EMA recurrence over `data` seeded
at `data[0]` (not at a simple average). -/
def calculateEMAForSeries (data : List ℚ) (period : ℕ) : ℚ :=
  data.tail.foldl (emaStep (2 / (period + 1))) (data.headD 0)

/-- `generateIndicatorSeries(bars, period, type)`: for each index `i` from
`period - 1`, recompute the indicator on the window `closes[i-period+1..i]`
and tag it with the bar's date. -/
def generateIndicatorSeries (bars : List PriceBar) (period : ℕ)
    (type : IndicatorType) : List SeriesPoint :=
  let closes := bars.map (·.close)
  (List.range' (period - 1) (closes.length - (period - 1))).map fun i =>
    let slice := (closes.drop (i + 1 - period)).take period
    { time := dateOf ((bars.getD i default).timestamp)
      value :=
        if type = IndicatorType.sma then sumList slice / period
        else calculateEMAForSeries slice period }

/-- The emission loop of `generateRSISeries` past the seed point: Wilder-update
`(avgGain, avgLoss)` with each change and emit one RSI point per bar, with
`rs = avgLoss == 0 ? 100 : avgGain / avgLoss`. -/
def rsiWalk (period : ℕ) (gl : ℚ × ℚ) : List (ℚ × PriceBar) → List SeriesPoint
  | [] => []
  | (change, bar) :: rest =>
    let gl' := wilderStep period gl change
    let rs := if gl'.2 = 0 then 100 else gl'.1 / gl'.2
    { time := dateOf bar.timestamp, value := 100 - 100 / (1 + rs) }
      :: rsiWalk period gl' rest

/-- `generateRSISeries(bars, period)`: seed the Wilder averages on the first
`period` changes, emit the seed RSI point at bar `period`, then walk the
remaining changes. -/
def generateRSISeries (bars : List PriceBar) (period : ℕ) : List SeriesPoint :=
  let closes := bars.map (·.close)
  if closes.length < period + 1 then []
  else
    let seed := ((diffs closes).take period).foldl rsiSeedStep (0, 0)
    let avgGain := seed.1 / period
    let avgLoss := seed.2 / period
    let rs := if avgLoss = 0 then 100 else avgGain / avgLoss
    { time := dateOf ((bars.getD period default).timestamp)
      value := 100 - 100 / (1 + rs) }
      :: rsiWalk period (avgGain, avgLoss)
        (((diffs closes).drop period).zip (bars.drop (period + 1)))

/-- `EquityPoint` from `src/frontend/src/api/types.ts`. -/
structure EquityPoint where
  date : String
  equity : ℚ
  benchmark : Option ℚ := none
  drawdown : Option ℚ := none
deriving DecidableEq, Inhabited

/-- The mapping loop of `calculateDrawdownSeries`: carry the running peak,
bump it on a new high, and attach `(equity - peak) / peak * 100` to each
point, preserving the other fields. -/
def ddWalk (peak : ℚ) : List EquityPoint → List EquityPoint
  | [] => []
  | p :: rest =>
    let peak' := if peak < p.equity then p.equity else peak
    { p with drawdown := some ((p.equity - peak') / peak' * 100) }
      :: ddWalk peak' rest

/-- `calculateDrawdownSeries(equityCurve)`: drawdown-from-running-peak series,
with the peak initialised to the first point's equity. -/
def calculateDrawdownSeries (equityCurve : List EquityPoint) :
    List EquityPoint :=
  match equityCurve with
  | [] => []
  | c :: _ => ddWalk c.equity equityCurve

/-- One `{date, sharpe, volatility}` entry of `calculateRollingMetrics`. -/
structure RollingPoint where
  date : String
  sharpe : ℚ
  volatility : ℚ
deriving DecidableEq, Inhabited

/-- `calculateRollingMetrics(equityCurve, window)`.  JavaScript's `Math.sqrt`
is passed in as the abstract square root `sq`; everything else is exact
rational arithmetic.  For each index `i >= window` the trailing `window`
points `equityCurve[i-window..i-1]` yield `window - 1` simple returns, the
annualised population volatility, and the guarded Sharpe ratio. -/
def calculateRollingMetrics (sq : ℚ → ℚ) (equityCurve : List EquityPoint)
    (window : ℕ) : List RollingPoint :=
  if equityCurve.length < window then []
  else
    (List.range' window (equityCurve.length - window)).map fun i =>
      let slice := (equityCurve.drop (i - window)).take window
      let returns := ((slice.drop 1).zip slice).map fun p =>
        (p.1.equity - p.2.equity) / p.2.equity
      let avgReturn := returns.foldl (· + ·) (0 : ℚ) / (returns.length : ℚ)
      let variance :=
        returns.foldl (fun s r => s + (r - avgReturn) ^ 2) (0 : ℚ) /
          (returns.length : ℚ)
      let volatility := sq variance * sq 252 * 100
      let sharpe :=
        if 0 < volatility then avgReturn * 252 / (volatility / 100) else 0
      { date := (equityCurve.getD i default).date
        sharpe := sharpe
        volatility := volatility }

/-- Modelled from the spec's words for `rollingMetrics(equityCurve, window)`:
for each index `i >= window`, simple returns over the trailing `window`
points, `volatility = stddev(returns) * sqrt(252) * 100` with the population
standard deviation, `sharpe = (mean(returns)*252) / (volatility/100)` with
`volatility == 0` guarded to `sharpe = 0`, and the empty sequence when the
curve is shorter than the window.  Stated independently of the source byte
for byte: returns pair each equity with its successor via `zipWith`,
aggregates use `List.sum`, and the Sharpe guard tests `volatility = 0`
directly. -/
def rollingMetricsSpec (sq : ℚ → ℚ) (equityCurve : List EquityPoint)
    (window : ℕ) : List RollingPoint :=
  if equityCurve.length < window then []
  else
    (List.range' window (equityCurve.length - window)).map fun i =>
      let pts := ((equityCurve.drop (i - window)).take window).map (·.equity)
      let returns := List.zipWith (fun next prev => (next - prev) / prev)
        pts.tail pts
      let mean := returns.sum / (returns.length : ℚ)
      let stddev :=
        sq (((returns.map fun r => (r - mean) ^ 2).sum) / (returns.length : ℚ))
      let volatility := stddev * sq 252 * 100
      { date := (equityCurve.getD i default).date
        sharpe := if volatility = 0 then 0 else mean * 252 / (volatility / 100)
        volatility := volatility }

/-- Trade side, from `src/frontend/src/api/types.ts`. -/
inductive TradeSide
  | long
  | short
deriving DecidableEq

/-- Trade status (`'open' | 'closed'`); `opened` stands for the string
`'open'`, which is a reserved word in Lean. -/
inductive TradeStatus
  | opened
  | closed
deriving DecidableEq

/-- `Trade` from `src/frontend/src/api/types.ts`; optional fields are absent
on open trades. -/
structure Trade where
  id : String
  symbol : String
  entryDate : String
  entryPrice : ℚ
  exitDate : Option String := none
  exitPrice : Option ℚ := none
  quantity : ℚ
  side : TradeSide
  pnl : Option ℚ := none
  pnlPercent : Option ℚ := none
  status : TradeStatus
deriving DecidableEq

/-- The filter at the head of `analyzeTradeDistribution`: closed trades with
a defined `pnlPercent`. -/
def closedTradesOf (trades : List Trade) : List Trade :=
  trades.filter fun t =>
    decide (t.status = TradeStatus.closed) && t.pnlPercent.isSome

/-- The `pnlPercent` values (`t.pnlPercent || 0`) of the closed trades. -/
def pnlsOf (trades : List Trade) : List ℚ :=
  (closedTradesOf trades).map fun t => t.pnlPercent.getD 0

/-- JavaScript `Math.max(...values)` on a non-empty argument list. -/
def maxList (l : List ℚ) : ℚ :=
  l.foldl max (l.headD 0)

/-- JavaScript `Math.min(...values)` on a non-empty argument list. -/
def minList (l : List ℚ) : ℚ :=
  l.foldl min (l.headD 0)

/-- The smallest closed-trade `pnlPercent` (`Math.min(...pnls)`). -/
def minPnl (trades : List Trade) : ℚ :=
  minList (pnlsOf trades)

/-- The largest closed-trade `pnlPercent` (`Math.max(...pnls)`). -/
def maxPnl (trades : List Trade) : ℚ :=
  maxList (pnlsOf trades)

/-- `binSize = (max - min) / binCount` with the fixed `binCount = 20`. -/
def binSizeOf (trades : List Trade) : ℚ :=
  (maxPnl trades - minPnl trades) / 20

/-- One histogram bin of `analyzeTradeDistribution`.  The source renders the
bin label as the string `start.toFixed(1) + '%'`; the numeric start is kept
here in place of that formatted label. -/
structure TradeBin where
  rangeStart : ℚ
  count : ℕ
  isPositive : Bool
deriving DecidableEq, Inhabited

/-- Result record of `analyzeTradeDistribution`. -/
structure TradeDistribution where
  bins : List TradeBin
  winRate : ℚ
  avgWin : ℚ
  avgLoss : ℚ
deriving DecidableEq

/-- `analyzeTradeDistribution(trades)`: win/loss statistics over closed
trades plus a 20-bin histogram of `pnlPercent` spanning `[min, max]`, each
bin counting `p` with `start <= p < start + binSize` and tagged positive when
`start >= 0`. -/
def analyzeTradeDistribution (trades : List Trade) : TradeDistribution :=
  let closedTrades := closedTradesOf trades
  if closedTrades.isEmpty then ⟨[], 0, 0, 0⟩
  else
    let winners := closedTrades.filter fun t => decide (0 < t.pnlPercent.getD 0)
    let losers := closedTrades.filter fun t => decide (t.pnlPercent.getD 0 ≤ 0)
    let winRate := (winners.length : ℚ) / closedTrades.length * 100
    let avgWin :=
      if 0 < winners.length then
        sumList (winners.map fun t => t.pnlPercent.getD 0) / winners.length
      else 0
    let avgLoss :=
      if 0 < losers.length then
        sumList (losers.map fun t => t.pnlPercent.getD 0) / losers.length
      else 0
    let pnls := pnlsOf trades
    let bins := (List.range 20).map fun i : ℕ =>
      let start := minPnl trades + (i : ℚ) * binSizeOf trades
      { rangeStart := start
        count := (pnls.filter fun p =>
          decide (start ≤ p) && decide (p < start + binSizeOf trades)).length
        isPositive := decide (0 ≤ start) }
    ⟨bins, winRate, avgWin, avgLoss⟩

/-- `BacktestMetrics` from `src/frontend/src/api/types.ts`. -/
structure BacktestMetrics where
  totalReturn : ℚ
  annualizedReturn : ℚ
  sharpeRatio : ℚ
  sortinoRatio : ℚ
  maxDrawdown : ℚ
  winRate : ℚ
  profitFactor : ℚ
  totalTrades : ℕ
  winningTrades : ℕ
  losingTrades : ℕ
  avgWin : ℚ
  avgLoss : ℚ
  avgHoldingPeriod : ℚ
deriving DecidableEq

/-- Backtest status union. -/
inductive BacktestStatus
  | pending
  | running
  | completed
  | failed
deriving DecidableEq

/-- `BacktestResult` from `src/frontend/src/api/types.ts`. -/
structure BacktestResult where
  id : String
  strategyName : String
  symbol : String
  startDate : String
  endDate : String
  initialCapital : ℚ
  finalValue : ℚ
  metrics : BacktestMetrics
  equityCurve : List EquityPoint
  trades : List Trade
  status : BacktestStatus
deriving DecidableEq

/-- The six tracked metric keys of `compareBacktestMetrics` (the typed key
union `keyof BacktestMetrics` restricted to the `metrics` array). -/
inductive MetricKey
  | totalReturn
  | annualizedReturn
  | sharpeRatio
  | maxDrawdown
  | winRate
  | profitFactor
deriving DecidableEq

/-- The `metrics` array of `compareBacktestMetrics`, in source order. -/
def metricKeys : List MetricKey :=
  [.totalReturn, .annualizedReturn, .sharpeRatio, .maxDrawdown, .winRate,
    .profitFactor]

/-- The `metricLabels` table. -/
def metricLabel : MetricKey → String
  | .totalReturn => "Total Return (%)"
  | .annualizedReturn => "Annualized Return (%)"
  | .sharpeRatio => "Sharpe Ratio"
  | .maxDrawdown => "Max Drawdown (%)"
  | .winRate => "Win Rate (%)"
  | .profitFactor => "Profit Factor"

/-- The `higherIsBetter` direction table (`false` only for `maxDrawdown`). -/
def higherIsBetter : MetricKey → Bool
  | .maxDrawdown => false
  | _ => true

/-- Field access `r.metrics[metric]` for a tracked key. -/
def metricValue : MetricKey → BacktestMetrics → ℚ
  | .totalReturn, m => m.totalReturn
  | .annualizedReturn, m => m.annualizedReturn
  | .sharpeRatio, m => m.sharpeRatio
  | .maxDrawdown, m => m.maxDrawdown
  | .winRate, m => m.winRate
  | .profitFactor, m => m.profitFactor

/-- One `{name, value, best}` cell of the comparison table. -/
structure CompareValue where
  name : String
  value : ℚ
  best : Bool
deriving DecidableEq

/-- One row of the comparison table. -/
structure CompareRow where
  metric : String
  values : List CompareValue
deriving DecidableEq

/-- `compareBacktestMetrics(results)`: one row per tracked metric; the best
value is `Math.max` of the per-strategy values when higher is better, and
also `Math.max` for `maxDrawdown` (closest to zero); each cell is marked
`best` exactly when its value equals the best value. -/
def compareBacktestMetrics (results : List BacktestResult) : List CompareRow :=
  if results.isEmpty then []
  else
    metricKeys.map fun key =>
      let values := results.map fun r => (r.strategyName, metricValue key r.metrics)
      let bestValue :=
        if higherIsBetter key then maxList (values.map (·.2))
        else if key = MetricKey.maxDrawdown then maxList (values.map (·.2))
        else minList (values.map (·.2))
      { metric := metricLabel key
        values := values.map fun v => ⟨v.1, v.2, decide (v.2 = bestValue)⟩ }

/-- The position shape consumed by `calculatePortfolioMetrics`. -/
structure PositionMV where
  marketValue : ℚ
  unrealizedPnL : ℚ
deriving DecidableEq

/-- Result record of `calculatePortfolioMetrics`. -/
structure PortfolioMetrics where
  totalValue : ℚ
  totalPnL : ℚ
  totalPnLPercent : ℚ
deriving DecidableEq

/-- `calculatePortfolioMetrics(positions)` from `usePortfolio`: sums of
market value and unrealized P&L, and the P&L percentage over the implied
cost basis, guarded to `0` unless `totalValue > 0`. -/
def calculatePortfolioMetrics (positions : List PositionMV) :
    PortfolioMetrics :=
  let totalValue := positions.foldl (fun s p => s + p.marketValue) 0
  let totalPnL := positions.foldl (fun s p => s + p.unrealizedPnL) 0
  let totalPnLPercent :=
    if 0 < totalValue then totalPnL / (totalValue - totalPnL) * 100 else 0
  ⟨totalValue, totalPnL, totalPnLPercent⟩

/-- The position shape consumed by `calculateDiversificationScore`. -/
structure PositionAlloc where
  allocation : ℚ
deriving DecidableEq

/-- `calculateDiversificationScore(positions)`: inverted Herfindahl index
normalised to a 0–100 scale and rounded (`Math.round`, half away from zero
upward, matches `round` on `ℚ`); `0` for zero or one positions. -/
def calculateDiversificationScore (positions : List PositionAlloc) : ℤ :=
  if positions.length = 0 then 0
  else if positions.length = 1 then 0
  else
    let hhi := positions.foldl (fun s p => s + (p.allocation / 100) ^ 2) 0
    let maxDiversification : ℚ := 1 / positions.length
    round ((1 - hhi) / (1 - maxDiversification) * 100)

/-! ## Generic helper lemmas -/

theorem foldl_add_map {α : Type} (f : α → ℚ) :
    ∀ (l : List α) (x : ℚ), l.foldl (fun s a => s + f a) x = x + (l.map f).sum
  | [], x => by simp
  | a :: l, x => by
    simp only [List.foldl_cons, List.map_cons, List.sum_cons,
      foldl_add_map f l (x + f a)]
    ring

theorem sumList_eq_sum (l : List ℚ) : sumList l = l.sum := by
  simpa using foldl_add_map id l 0

theorem le_foldl_max (l : List ℚ) : ∀ (a : ℚ), a ≤ l.foldl max a := by
  induction l with
  | nil => simp
  | cons x l ih => exact fun a => le_trans (le_max_left a x) (ih (max a x))

theorem mem_le_foldl_max (l : List ℚ) :
    ∀ (a : ℚ), ∀ x ∈ l, x ≤ l.foldl max a := by
  induction l with
  | nil => simp
  | cons y l ih =>
    intro a x hx
    rw [List.foldl_cons]
    rcases List.mem_cons.mp hx with h | h
    · rw [h]
      exact le_trans (le_max_right a y) (le_foldl_max l (max a y))
    · exact ih (max a y) x h

theorem le_maxList (l : List ℚ) (x : ℚ) (hx : x ∈ l) : x ≤ maxList l :=
  mem_le_foldl_max l (l.headD 0) x hx

theorem foldl_max_mem (l : List ℚ) :
    ∀ (a : ℚ), l.foldl max a = a ∨ l.foldl max a ∈ l := by
  induction l with
  | nil => simp
  | cons x l ih =>
    intro a
    rw [List.foldl_cons]
    rcases ih (max a x) with h | h
    · rcases max_choice a x with hm | hm
      · rw [hm] at h ⊢
        exact Or.inl h
      · rw [hm] at h ⊢
        right
        rw [h]
        exact List.mem_cons_self x l
    · exact Or.inr (List.mem_cons_of_mem x h)

theorem maxList_mem (l : List ℚ) (hl : l ≠ []) : maxList l ∈ l := by
  rcases foldl_max_mem l (l.headD 0) with h | h
  · rw [maxList, h]
    cases l with
    | nil => exact absurd rfl hl
    | cons x l => exact List.mem_cons_self x l
  · exact h

theorem foldl_min_le (l : List ℚ) : ∀ (a : ℚ), l.foldl min a ≤ a := by
  induction l with
  | nil => simp
  | cons x l ih => exact fun a => le_trans (ih (min a x)) (min_le_left a x)

theorem foldl_min_le_mem (l : List ℚ) :
    ∀ (a : ℚ), ∀ x ∈ l, l.foldl min a ≤ x := by
  induction l with
  | nil => simp
  | cons y l ih =>
    intro a x hx
    rw [List.foldl_cons]
    rcases List.mem_cons.mp hx with h | h
    · rw [h]
      exact le_trans (foldl_min_le l (min a y)) (min_le_right a y)
    · exact ih (min a y) x h

theorem minList_le (l : List ℚ) (x : ℚ) (hx : x ∈ l) : minList l ≤ x :=
  foldl_min_le_mem l (l.headD 0) x hx

theorem getD_map_range' {α : Type} (f : ℕ → α) (d : α) :
    ∀ (n s k : ℕ), k < n → ((List.range' s n).map f).getD k d = f (s + k)
  | 0, _, k, hk => absurd hk (Nat.not_lt_zero k)
  | n + 1, s, 0, _ => by simp [List.range'_succ]
  | n + 1, s, k + 1, hk => by
    have := getD_map_range' f d n (s + 1) k (Nat.lt_of_succ_lt_succ hk)
    simp only [List.range'_succ, List.map_cons, List.getD_cons_succ, this]
    congr 1
    omega

/-! ## C7: portfolio metric formulas -/

/-- C7 (amended): `calculatePortfolioMetrics` returns the sum of market
values, the sum of unrealized P&L, and the percentage
`totalPnL / (totalValue - totalPnL) * 100` guarded to `0` exactly when
`totalValue ≤ 0` (the source tests `totalValue > 0`, not `totalValue != 0`);
in exact arithmetic the denominator vanishes when `totalValue = totalPnL`. -/
theorem portfolio_metrics_formulas (positions : List PositionMV) :
    (calculatePortfolioMetrics positions).totalValue =
      (positions.map (·.marketValue)).sum ∧
    (calculatePortfolioMetrics positions).totalPnL =
      (positions.map (·.unrealizedPnL)).sum ∧
    (calculatePortfolioMetrics positions).totalPnLPercent =
      (if 0 < (positions.map (·.marketValue)).sum then
        (positions.map (·.unrealizedPnL)).sum /
          ((positions.map (·.marketValue)).sum -
            (positions.map (·.unrealizedPnL)).sum) * 100
      else 0) := by
  have h1 := foldl_add_map (fun p : PositionMV => p.marketValue) positions 0
  have h2 := foldl_add_map (fun p : PositionMV => p.unrealizedPnL) positions 0
  simp [calculatePortfolioMetrics, h1, h2]

/-- C7 counterexample: for a single position with negative market value the
guard fires although `totalValue ≠ 0`, so `totalPnLPercent` is `0` even
though the claimed formula gives `-100/3`. -/
theorem portfolio_percent_guard_counterexample :
    (calculatePortfolioMetrics [⟨-10, 5⟩]).totalValue = -10 ∧
    (calculatePortfolioMetrics [⟨-10, 5⟩]).totalValue ≠ 0 ∧
    (calculatePortfolioMetrics [⟨-10, 5⟩]).totalPnLPercent = 0 ∧
    (calculatePortfolioMetrics [⟨-10, 5⟩]).totalPnL /
      ((calculatePortfolioMetrics [⟨-10, 5⟩]).totalValue -
        (calculatePortfolioMetrics [⟨-10, 5⟩]).totalPnL) * 100 = -100 / 3 ∧
    (-100 / 3 : ℚ) ≠ 0 := by
  norm_num [calculatePortfolioMetrics]

/-! ## C6: diversification score bounds -/

/-- C6 counterexample: two positions whose allocations are each in the 0–100
range but sum to 200 drive the score to `-200`, outside `[0, 100]`. -/
theorem diversification_counterexample :
    calculateDiversificationScore [⟨100⟩, ⟨100⟩] = -200 ∧
    (0 ≤ (100 : ℚ) ∧ (100 : ℚ) ≤ 100) ∧ (-200 : ℤ) < 0 := by
  refine ⟨?_, by norm_num, by norm_num⟩
  norm_num [calculateDiversificationScore, round_eq]

theorem sq_sum_le_length_mul_sum_sq :
    ∀ l : List ℚ, l.sum ^ 2 ≤ l.length * (l.map (· ^ 2)).sum := by
  intro l
  induction l with
  | nil => simp
  | cons a l ih =>
    rcases Nat.eq_zero_or_pos l.length with h0 | hpos
    · rw [List.length_eq_zero.mp h0]
      simp
    · have hn : (0 : ℚ) < l.length := by exact_mod_cast hpos
      simp only [List.sum_cons, List.length_cons, List.map_cons,
        Nat.cast_add, Nat.cast_one]
      nlinarith [sq_nonneg ((l.length : ℚ) * a - l.sum), sq_nonneg l.sum,
        sq_nonneg a, mul_pos hn hn]

theorem sum_map_div (l : List ℚ) (c : ℚ) :
    (l.map (· / c)).sum = l.sum / c := by
  induction l with
  | nil => simp
  | cons a l ih => simp [ih, add_div]

/-- The zero result of `calculateDiversificationScore` on degenerate inputs. -/
theorem diversification_small (positions : List PositionAlloc)
    (h : positions.length ≤ 1) : calculateDiversificationScore positions = 0 := by
  match positions with
  | [] => simp [calculateDiversificationScore]
  | [p] => simp [calculateDiversificationScore]
  | p :: q :: rest => simp at h

/-- C6 (amended): for allocations that are nonnegative and sum to 100
percent the diversification score lies in `[0, 100]`, and it is `0` for
zero or one positions.  Without the sum constraint the claim fails (see the
counterexample): allocations may each lie in 0–100 yet sum past 100, driving
the score negative. -/
theorem diversification_bounds (positions : List PositionAlloc) :
    ((∀ p ∈ positions, 0 ≤ p.allocation) →
      (positions.map (·.allocation)).sum = 100 →
      0 ≤ calculateDiversificationScore positions ∧
        calculateDiversificationScore positions ≤ 100) ∧
    (positions.length ≤ 1 → calculateDiversificationScore positions = 0) := by
  refine ⟨?_, diversification_small positions⟩
  intro hnn hsum
  rcases Nat.lt_or_ge positions.length 2 with hsmall | hbig
  · rw [diversification_small positions (by omega)]
    norm_num
  -- at least two positions: the real Herfindahl branch
  have hn0 : positions.length ≠ 0 := by omega
  have hn1 : positions.length ≠ 1 := by omega
  set L : List ℚ := (positions.map (·.allocation)).map (· / 100) with hL
  have hLsum : L.sum = 1 := by
    rw [hL, sum_map_div, hsum]
    norm_num
  have hLlen : L.length = positions.length := by simp [hL]
  have hLnn : ∀ x ∈ L, 0 ≤ x := by
    intro x hx
    rw [hL] at hx
    rcases List.mem_map.mp hx with ⟨a, ha, rfl⟩
    rcases List.mem_map.mp ha with ⟨p, hp, rfl⟩
    exact div_nonneg (hnn p hp) (by norm_num)
  have hfold : positions.foldl (fun s p => s + (p.allocation / 100) ^ 2) 0 =
      (L.map (· ^ 2)).sum := by
    rw [foldl_add_map (fun p : PositionAlloc => (p.allocation / 100) ^ 2)
      positions 0, zero_add, hL]
    simp only [List.map_map]
    rfl
  -- HHI bounds
  have hhi_le_one : (L.map (· ^ 2)).sum ≤ 1 := by
    have h : (L.map (· ^ 2)).sum ≤ (L.map (fun x => x)).sum := by
      refine List.sum_le_sum fun x hx => ?_
      have h1 : x ≤ 1 := hLsum ▸ List.single_le_sum hLnn x hx
      have h0 : 0 ≤ x := hLnn x hx
      nlinarith
    rw [List.map_id', hLsum] at h
    exact h
  have one_le_n_hhi : 1 ≤ (positions.length : ℚ) * (L.map (· ^ 2)).sum := by
    have h := sq_sum_le_length_mul_sum_sq L
    rw [hLsum, hLlen] at h
    simpa using h
  -- the normalised quotient lies in [0, 100]
  have hnQ : (2 : ℚ) ≤ positions.length := by exact_mod_cast hbig
  have hnpos : (0 : ℚ) < positions.length := by linarith
  have hdpos : (0 : ℚ) < 1 - 1 / (positions.length : ℚ) := by
    have h : (1 : ℚ) / positions.length ≤ 1 / 2 := by
      apply one_div_le_one_div_of_le <;> linarith
    linarith
  have hq0 : 0 ≤ (1 - (L.map (· ^ 2)).sum) /
      (1 - 1 / (positions.length : ℚ)) * 100 :=
    mul_nonneg (div_nonneg (by linarith) hdpos.le) (by norm_num)
  have hq100 : (1 - (L.map (· ^ 2)).sum) /
      (1 - 1 / (positions.length : ℚ)) * 100 ≤ 100 := by
    have hratio : (1 - (L.map (· ^ 2)).sum) /
        (1 - 1 / (positions.length : ℚ)) ≤ 1 := by
      rw [div_le_one hdpos]
      have h : 1 / (positions.length : ℚ) ≤ (L.map (· ^ 2)).sum := by
        rw [div_le_iff₀ hnpos]
        linarith [one_le_n_hhi]
      linarith
    have h := mul_le_mul_of_nonneg_right hratio (by norm_num : (0 : ℚ) ≤ 100)
    linarith
  have hscore : calculateDiversificationScore positions =
      round ((1 - (L.map (· ^ 2)).sum) /
        (1 - 1 / (positions.length : ℚ)) * 100) := by
    simp only [calculateDiversificationScore, if_neg hn0, if_neg hn1, hfold]
  rw [hscore, round_eq]
  constructor
  · exact Int.floor_nonneg.mpr (by linarith)
  · calc ⌊(1 - (L.map (· ^ 2)).sum) /
          (1 - 1 / (positions.length : ℚ)) * 100 + 1 / 2⌋
        ≤ ⌊(100 : ℚ) + 1 / 2⌋ := Int.floor_le_floor (by linarith)
      _ = 100 := by
          rw [Int.floor_eq_iff]
          norm_num

/-- C6 witness: four equal 25-percent allocations satisfy the hypotheses and
the score is within bounds. -/
theorem diversification_bounds_witness :
    0 ≤ calculateDiversificationScore [⟨25⟩, ⟨25⟩, ⟨25⟩, ⟨25⟩] ∧
    calculateDiversificationScore [⟨25⟩, ⟨25⟩, ⟨25⟩, ⟨25⟩] ≤ 100 :=
  (diversification_bounds [⟨25⟩, ⟨25⟩, ⟨25⟩, ⟨25⟩]).1
    (by intro p hp; fin_cases hp <;> norm_num)
    (by norm_num)

/-! ## C10: EMA versus SMA on the synthetic 252-bar uptrend -/

/-- The closing prices `100, 100.5, 101, ...` of the 252-bar scenario. -/
def closes10 : List ℚ :=
  (List.range 252).map fun k : ℕ => 100 + (k : ℚ) / 2

theorem drop_range' :
    ∀ (m n s : ℕ), (List.range' s n).drop m = List.range' (s + m) (n - m)
  | 0, n, s => by simp
  | m + 1, 0, s => by simp
  | m + 1, n + 1, s => by
    rw [List.range'_succ, List.drop_succ_cons, drop_range' m n (s + 1)]
    congr 1 <;> omega

/-- On an arithmetic close series with step `1/2`, the 12-period EMA walk
keeps the invariant `ema = close - 13/4`: the seed already sits at the
recurrence's steady-state lag, so it never moves off it. -/
theorem ema_walk_arith :
    ∀ (n s : ℕ) (e : ℚ), e = 100 + (s : ℚ) / 2 - 13 / 4 →
      (((List.range' s n).map fun k : ℕ => (100 : ℚ) + (k : ℚ) / 2).foldl
        (emaStep (2 / 13)) e) = 100 + ((s + n : ℕ) : ℚ) / 2 - 13 / 4
  | 0, s, e, he => by simpa using he
  | n + 1, s, e, he => by
    rw [List.range'_succ, List.map_cons, List.foldl_cons]
    have hstep : emaStep (2 / 13) e (100 + (s : ℚ) / 2) =
        100 + ((s + 1 : ℕ) : ℚ) / 2 - 13 / 4 := by
      rw [he, emaStep]
      push_cast
      ring
    rw [ema_walk_arith n (s + 1) _ hstep]
    have harith : s + 1 + n = s + (n + 1) := by omega
    rw [harith]

theorem closes10_length : closes10.length = 252 := by
  simp [closes10]

set_option maxRecDepth 4000 in
theorem ema10_eq : calculateEMA closes10 12 = some (891 / 4) := by
  rw [calculateEMA, if_neg (by rw [closes10_length]; norm_num)]
  congr 1
  have hdrop : closes10.drop 12 =
      (List.range' 12 240).map fun k : ℕ => (100 : ℚ) + (k : ℚ) / 2 := by
    rw [closes10, ← List.map_drop, List.range_eq_range', drop_range']
  have htake : closes10.take 12 =
      (List.range 12).map fun k : ℕ => (100 : ℚ) + (k : ℚ) / 2 := by
    rw [closes10, ← List.map_take, List.take_range]
    norm_num
  have hseed : sumList (closes10.take 12) / ((12 : ℕ) : ℚ) =
      100 + ((12 : ℕ) : ℚ) / 2 - 13 / 4 := by
    rw [htake, show List.range 12 = [0, 1, 2, 3, 4, 5, 6, 7, 8, 9, 10, 11]
      by decide]
    simp [sumList]
    norm_num
  have hm : (2 : ℚ) / (((12 : ℕ) : ℚ) + 1) = 2 / 13 := by norm_num
  rw [hdrop, hm, hseed,
    ema_walk_arith 240 12 _ (by push_cast; ring)]
  norm_num

set_option maxRecDepth 4000 in
theorem sma10_eq : calculateSMA closes10 12 = some (891 / 4) := by
  rw [calculateSMA, if_neg (by rw [closes10_length]; norm_num)]
  congr 1
  have hlen : closes10.length - 12 = 240 := by rw [closes10_length]
  rw [hlen]
  have hdrop : closes10.drop 240 =
      (List.range' 240 12).map fun k : ℕ => (100 : ℚ) + (k : ℚ) / 2 := by
    rw [closes10, ← List.map_drop, List.range_eq_range', drop_range']
  rw [hdrop, show List.range' 240 12 =
    [240, 241, 242, 243, 244, 245, 246, 247, 248, 249, 250, 251] by decide]
  simp [sumList]
  norm_num

/-- C10 counterexample: on the strictly increasing `100, 100.5, 101, ...`
series of 252 closes, the 12-period EMA is not greater than the 12-period
SMA — the two coincide exactly at `891/4 = 222.75`. -/
theorem ema_gt_sma_counterexample :
    ¬ (calculateSMA closes10 12).getD 0 < (calculateEMA closes10 12).getD 0 := by
  rw [ema10_eq, sma10_eq]
  simp

/-- C10 (amended): for the 252-bar arithmetic close series the point-in-time
12-period EMA equals the 12-period SMA exactly (both `891/4`); the strict
inequality claimed by the spec fails because the EMA seed equals the
steady-state lag of the recurrence on an arithmetic series. -/
theorem ema_equals_sma_arith :
    calculateEMA closes10 12 = some (891 / 4) ∧
    calculateSMA closes10 12 = some (891 / 4) ∧
    calculateEMA closes10 12 = calculateSMA closes10 12 := by
  refine ⟨ema10_eq, sma10_eq, ?_⟩
  rw [ema10_eq, sma10_eq]

/-! ## C5: strategy comparison marks exactly the maxima -/

/-- Membership characterisation of `maxList` on a non-empty list. -/
theorem eq_maxList_iff (vs : List ℚ) (hvs : vs ≠ []) (x : ℚ) (hx : x ∈ vs) :
    x = maxList vs ↔ ∀ y ∈ vs, y ≤ x := by
  constructor
  · intro h y hy
    rw [h]
    exact le_maxList vs y hy
  · intro h
    exact le_antisymm (le_maxList vs x hx) (h (maxList vs) (maxList_mem vs hvs))

/-- Every branch of the source's `bestValue` selection evaluates to
`Math.max`: the `higherIsBetter` metrics directly, and `maxDrawdown` through
its dedicated closest-to-zero branch; the `Math.min` branch is dead. -/
theorem bestValue_eq_max (key : MetricKey) (vs : List ℚ) :
    (if higherIsBetter key then maxList vs
     else if key = MetricKey.maxDrawdown then maxList vs
     else minList vs) = maxList vs := by
  cases key <;> rfl

/-- C5: for non-empty results, `compareBacktestMetrics` yields one row per
tracked metric in order, each row carrying one cell per strategy, and a cell
is flagged `best` exactly when its value is greatest in the row — for
`maxDrawdown` included, where the numeric maximum is the drawdown closest to
zero.  Ties are all flagged. -/
theorem compare_metrics_best_is_max (results : List BacktestResult)
    (hne : results ≠ []) :
    (compareBacktestMetrics results).map (·.metric) =
      ["Total Return (%)", "Annualized Return (%)", "Sharpe Ratio",
        "Max Drawdown (%)", "Win Rate (%)", "Profit Factor"] ∧
    ∀ row ∈ compareBacktestMetrics results,
      row.values.map (·.name) = results.map (·.strategyName) ∧
      ∀ v ∈ row.values,
        (v.best = true ↔ ∀ w ∈ row.values, w.value ≤ v.value) := by
  have hemp : ¬ (results.isEmpty = true) := by simp [List.isEmpty_iff, hne]
  rw [compareBacktestMetrics, if_neg hemp]
  constructor
  · rfl
  · intro row hrow
    rcases List.mem_map.mp hrow with ⟨key, hkey, rfl⟩
    simp only [bestValue_eq_max, List.map_map]
    constructor
    · simp
    · intro v hv
      rcases List.mem_map.mp hv with ⟨r, hr, rfl⟩
      simp only [Function.comp_apply, decide_eq_true_eq]
      have hvs : (results.map fun r => metricValue key r.metrics) ≠ [] := by
        simp [hne]
      have hx : metricValue key r.metrics ∈
          results.map fun r => metricValue key r.metrics :=
        List.mem_map.mpr ⟨r, hr, rfl⟩
      have hmaps : (results.map ((fun x => x.2) ∘
          fun r : BacktestResult => (r.strategyName, metricValue key r.metrics)))
          = results.map fun r => metricValue key r.metrics := by
        simp
      rw [hmaps, eq_maxList_iff _ hvs _ hx]
      constructor
      · intro h w hw
        rcases List.mem_map.mp hw with ⟨q, hq, rfl⟩
        exact h _ (List.mem_map.mpr ⟨q, hq, rfl⟩)
      · intro h y hy
        rcases List.mem_map.mp hy with ⟨q, hq, rfl⟩
        exact h _ (List.mem_map.mpr ⟨q, hq, rfl⟩)

/-- Strategy A of the comparison scenario (`maxDrawdown = -10`). -/
def resultA : BacktestResult where
  id := "1"
  strategyName := "Strategy A"
  symbol := "AAPL"
  startDate := "2023-01-01"
  endDate := "2023-12-31"
  initialCapital := 100000
  finalValue := 120000
  metrics :=
    { totalReturn := 20
      annualizedReturn := 22
      sharpeRatio := 3 / 2
      sortinoRatio := 2
      maxDrawdown := -10
      winRate := 60
      profitFactor := 9 / 5
      totalTrades := 50
      winningTrades := 30
      losingTrades := 20
      avgWin := 5
      avgLoss := -3
      avgHoldingPeriod := 5 }
  equityCurve := []
  trades := []
  status := .completed

/-- Strategy B of the comparison scenario (`maxDrawdown = -5`, closest to
zero). -/
def resultB : BacktestResult where
  id := "2"
  strategyName := "Strategy B"
  symbol := "AAPL"
  startDate := "2023-01-01"
  endDate := "2023-12-31"
  initialCapital := 100000
  finalValue := 115000
  metrics :=
    { totalReturn := 15
      annualizedReturn := 16
      sharpeRatio := 6 / 5
      sortinoRatio := 3 / 2
      maxDrawdown := -5
      winRate := 55
      profitFactor := 3 / 2
      totalTrades := 40
      winningTrades := 22
      losingTrades := 18
      avgWin := 4
      avgLoss := -5 / 2
      avgHoldingPeriod := 7 }
  equityCurve := []
  trades := []
  status := .completed

/-- C5 witness: the two-strategy scenario with `maxDrawdown` −10 versus −5
satisfies the non-emptiness hypothesis. -/
theorem compare_metrics_best_is_max_witness :
    (compareBacktestMetrics [resultA, resultB]).map (·.metric) =
      ["Total Return (%)", "Annualized Return (%)", "Sharpe Ratio",
        "Max Drawdown (%)", "Win Rate (%)", "Profit Factor"] ∧
    ∀ row ∈ compareBacktestMetrics [resultA, resultB],
      row.values.map (·.name) = [resultA, resultB].map (·.strategyName) ∧
      ∀ v ∈ row.values,
        (v.best = true ↔ ∀ w ∈ row.values, w.value ≤ v.value) :=
  compare_metrics_best_is_max [resultA, resultB] (List.cons_ne_nil _ _)

/-! ## C4: drawdown sign and zeros -/

theorem ddWalk_nonpos (pts : List EquityPoint) :
    ∀ peak : ℚ, 0 < peak →
      ∀ pt ∈ ddWalk peak pts, ∃ d, pt.drawdown = some d ∧ d ≤ 0 := by
  induction pts with
  | nil => simp [ddWalk]
  | cons p rest ih =>
    intro peak hp pt hpt
    simp only [ddWalk] at hpt
    have hpk : (0 : ℚ) < if peak < p.equity then p.equity else peak := by
      split <;> linarith
    have hle : p.equity ≤ if peak < p.equity then p.equity else peak := by
      split
      · exact le_rfl
      · linarith
    rcases List.mem_cons.mp hpt with h | h
    · refine ⟨_, by rw [h], ?_⟩
      have hdiv : (p.equity - if peak < p.equity then p.equity else peak) /
          (if peak < p.equity then p.equity else peak) ≤ 0 :=
        div_nonpos_of_nonpos_of_nonneg (by linarith) hpk.le
      nlinarith
    · exact ih _ hpk pt h

theorem ddWalk_zero_at_max (pts : List EquityPoint) :
    ∀ (peak : ℚ) (i : ℕ), 0 < peak → i < pts.length →
      peak ≤ (pts.getD i default).equity →
      (∀ j < i, (pts.getD j default).equity ≤ (pts.getD i default).equity) →
      ((ddWalk peak pts).getD i default).drawdown = some 0 := by
  induction pts with
  | nil =>
    intro peak i _ hi
    simp at hi
  | cons p rest ih =>
    intro peak i hp hi hpeak hmono
    simp only [ddWalk]
    cases i with
    | zero =>
      simp only [List.getD_cons_zero] at hpeak
      have hpk : (if peak < p.equity then p.equity else peak) = p.equity := by
        by_cases h : peak < p.equity
        · rw [if_pos h]
        · rw [if_neg h]
          exact le_antisymm hpeak (not_lt.mp h)
      simp [hpk, sub_self]
    | succ i =>
      simp only [List.getD_cons_succ] at hpeak ⊢
      have hpe : p.equity ≤ (rest.getD i default).equity := by
        have h0 := hmono 0 (Nat.succ_pos i)
        simpa using h0
      have hpk : (0 : ℚ) < if peak < p.equity then p.equity else peak := by
        split <;> linarith
    -- the updated peak is still dominated by the later running maximum
      have hpk_le : (if peak < p.equity then p.equity else peak) ≤
          (rest.getD i default).equity := by
        split <;> [exact hpe; exact hpeak]
      refine ih _ i hpk (Nat.lt_of_succ_lt_succ hi) hpk_le fun j hj => ?_
      have := hmono (j + 1) (Nat.succ_lt_succ hj)
      simpa using this

/-- C4 (amended): for every equity curve whose first point has positive
equity, every drawdown emitted by `calculateDrawdownSeries` is `≤ 0`, the
first point's drawdown is `0`, and the drawdown is `0` at every index whose
equity is at least every earlier equity.  Positivity of the first equity is
required: the claim fails on curves that start at negative equity (see the
counterexample). -/
theorem drawdown_nonpositive (equityCurve : List EquityPoint)
    (hne : equityCurve ≠ [])
    (hpos : 0 < (equityCurve.headD default).equity) :
    (∀ pt ∈ calculateDrawdownSeries equityCurve,
      ∃ d, pt.drawdown = some d ∧ d ≤ 0) ∧
    ((calculateDrawdownSeries equityCurve).getD 0 default).drawdown = some 0 ∧
    (∀ i, i < equityCurve.length →
      (∀ j ≤ i, (equityCurve.getD j default).equity ≤
        (equityCurve.getD i default).equity) →
      ((calculateDrawdownSeries equityCurve).getD i default).drawdown
        = some 0) := by
  match equityCurve, hne with
  | c0 :: rest, _ =>
    simp only [List.headD_cons] at hpos
    have hzero : ∀ i, i < (c0 :: rest).length →
        (∀ j ≤ i, ((c0 :: rest).getD j default).equity ≤
          ((c0 :: rest).getD i default).equity) →
        ((calculateDrawdownSeries (c0 :: rest)).getD i default).drawdown
          = some 0 := by
      intro i hi hmono
      rw [calculateDrawdownSeries]
      refine ddWalk_zero_at_max (c0 :: rest) c0.equity i hpos hi ?_ ?_
      · simpa using hmono 0 (Nat.zero_le i)
      · exact fun j hj => hmono j (Nat.le_of_lt hj)
    refine ⟨?_, ?_, hzero⟩
    · rw [calculateDrawdownSeries]
      exact ddWalk_nonpos (c0 :: rest) c0.equity hpos
    · refine hzero 0 (Nat.succ_pos _) fun j hj => ?_
      have : j = 0 := Nat.le_zero.mp hj
      rw [this]

/-- C4 counterexample: a curve that starts at negative equity produces a
strictly positive drawdown (`+100`) at its second point, violating
`drawdown <= 0` as claimed for arbitrary non-empty curves. -/
theorem drawdown_negative_equity_counterexample :
    ((calculateDrawdownSeries
      [⟨"a", -100, none, none⟩, ⟨"b", -200, none, none⟩]).getD 1
        default).drawdown = some 100 ∧ ¬ ((100 : ℚ) ≤ 0) := by
  constructor
  · norm_num [calculateDrawdownSeries, ddWalk]
  · norm_num

/-- The five-point equity curve of the spec's end-to-end drawdown example. -/
def curveW : List EquityPoint :=
  [⟨"2023-01-01", 100, none, none⟩, ⟨"2023-01-02", 110, none, none⟩,
    ⟨"2023-01-03", 100, none, none⟩, ⟨"2023-01-04", 105, none, none⟩,
    ⟨"2023-01-05", 120, none, none⟩]

/-- C4 witness: the spec's example curve satisfies the hypotheses. -/
theorem drawdown_nonpositive_witness :
    (∀ pt ∈ calculateDrawdownSeries curveW,
      ∃ d, pt.drawdown = some d ∧ d ≤ 0) ∧
    ((calculateDrawdownSeries curveW).getD 0 default).drawdown = some 0 ∧
    (∀ i, i < curveW.length →
      (∀ j ≤ i, ((curveW.getD j default).equity ≤
        (curveW.getD i default).equity)) →
      ((calculateDrawdownSeries curveW).getD i default).drawdown = some 0) :=
  drawdown_nonpositive curveW (by simp [curveW])
    (by norm_num [curveW])

/-! ## C3: MACD signal fallback below 35 closes -/

theorem macdWalk_length (l : List ℚ) :
    ∀ a b : ℚ, (macdWalk a b l).length = l.length := by
  induction l with
  | nil => simp [macdWalk]
  | cons x rest ih =>
    intro a b
    simp [macdWalk, ih]

/-- C3 (amended): with at least 26 but fewer than 35 closes the 9-period
signal EMA of the MACD values is absent, and `calculateMACD` substitutes the
MACD line itself for the signal (the `|| macdLine` fallback), so it returns
a value whose signal equals its macd and whose histogram is the numeric `0`
— not absence as the spec's failure policy requires. -/
theorem macd_signal_fallback (data : List ℚ) (h1 : 26 ≤ data.length)
    (h2 : data.length < 35) :
    ∃ m, calculateMACD data = some ⟨m, m, 0⟩ := by
  obtain ⟨a, ha⟩ : ∃ a, calculateEMA data 12 = some a := by
    rw [calculateEMA, if_neg (by omega)]
    exact ⟨_, rfl⟩
  obtain ⟨b, hb⟩ : ∃ b, calculateEMA data 26 = some b := by
    rw [calculateEMA, if_neg (by omega)]
    exact ⟨_, rfl⟩
  have hsig : calculateEMA (macdWalk (sumList (data.take 12) / 12)
      (sumList (data.take 26) / 26) (data.drop 26)) 9 = none := by
    rw [calculateEMA, if_pos]
    rw [macdWalk_length, List.length_drop]
    omega
  refine ⟨a - b, ?_⟩
  rw [calculateMACD, ha, hb]
  simp only [hsig, sub_self]

/-- The 26 strictly increasing closes `100, 101, ..., 125`. -/
def closes3 : List ℚ :=
  [100, 101, 102, 103, 104, 105, 106, 107, 108, 109, 110, 111, 112, 113,
    114, 115, 116, 117, 118, 119, 120, 121, 122, 123, 124, 125]

/-- C3 counterexample: on 26 closes (in `[26, 35)`) `calculateMACD` does not
return absence for signal and histogram; it returns the concrete record
`{macd := 7, signal := 7, histogram := 0}`, the sentinel the failure policy
forbids. -/
theorem macd_insufficient_signal_counterexample :
    closes3.length = 26 ∧ calculateMACD closes3 = some ⟨7, 7, 0⟩ := by
  constructor
  · norm_num [closes3]
  · norm_num [calculateMACD, calculateEMA, sumList, emaStep, macdWalk, closes3]

/-- C3 witness: the 26-close series satisfies both length hypotheses. -/
theorem macd_signal_fallback_witness :
    ∃ m, calculateMACD closes3 = some ⟨m, m, 0⟩ :=
  macd_signal_fallback closes3 (by norm_num [closes3]) (by norm_num [closes3])

/-! ## C2: the EMA series recomputes a window-seeded recurrence -/

/-- C2 (amended): point `k` of the EMA indicator series is dated at bar
`k + period - 1` and carries `calculateEMAForSeries` of only the trailing
window `closes[k .. k+period-1]`, i.e. the EMA recurrence seeded at the
window's first close — not the point-in-time `calculateEMA` of the whole
prefix, from which it differs in general (see the counterexample).  The
series has one point per bar from index `period - 1` on. -/
theorem ema_series_window_recurrence (bars : List PriceBar) (period k : ℕ)
    (hp : 1 ≤ period) (hk : k + period ≤ bars.length) :
    (generateIndicatorSeries bars period IndicatorType.ema).getD k default =
      { time := dateOf ((bars.getD (k + period - 1) default).timestamp)
        value := calculateEMAForSeries
          (((bars.map (·.close)).drop k).take period) period } ∧
    (generateIndicatorSeries bars period IndicatorType.ema).length =
      bars.length + 1 - period := by
  constructor
  · simp only [generateIndicatorSeries]
    rw [getD_map_range' _ _ _ _ k
      (by simp only [List.length_map]; omega)]
    have hidx : period - 1 + k + 1 - period = k := by omega
    have hidx2 : period - 1 + k = k + period - 1 := by omega
    have hidx3 : k + period - 1 + 1 - period = k := by omega
    simp [hidx, hidx2, hidx3]
  · simp only [generateIndicatorSeries, List.length_map, List.length_range']
    omega

/-- Three bars with closes `100, 0, 0` (timestamps kept trivial). -/
def barsC2 : List PriceBar :=
  [⟨"a", 100, 100, 100, 100, 0⟩, ⟨"b", 0, 0, 0, 0, 0⟩, ⟨"c", 0, 0, 0, 0, 0⟩]

/-- C2 counterexample: with closes `[100, 0, 0]` and period 2 the last EMA
series point is `0` (recurrence over the window `[0, 0]` seeded at `0`),
while the point-in-time `calculateEMA` over the whole close series is
`50/3`; the claimed equality fails. -/
theorem ema_series_prefix_counterexample :
    ((generateIndicatorSeries barsC2 2 IndicatorType.ema).getD 1
      default).value = 0 ∧
    calculateEMA (barsC2.map (·.close)) 2 = some (50 / 3) ∧
    (0 : ℚ) ≠ 50 / 3 := by
  refine ⟨?_, ?_, by norm_num⟩
  · norm_num [generateIndicatorSeries, calculateEMAForSeries, emaStep,
      barsC2, sumList, List.range']
  · norm_num [calculateEMA, emaStep, barsC2, sumList]

/-- C2 witness: the three-bar example satisfies the hypotheses at `k = 1`,
`period = 2`. -/
theorem ema_series_window_recurrence_witness :
    ((generateIndicatorSeries barsC2 2 IndicatorType.ema).getD 1 default =
      { time := dateOf ((barsC2.getD (1 + 2 - 1) default).timestamp)
        value := calculateEMAForSeries
          (((barsC2.map (·.close)).drop 1).take 2) 2 } ∧
    (generateIndicatorSeries barsC2 2 IndicatorType.ema).length =
      barsC2.length + 1 - 2) :=
  ema_series_window_recurrence barsC2 2 1 (by norm_num)
    (by norm_num [barsC2])

/-! ## C1: RSI when the average loss is zero -/

theorem diffs_pos :
    ∀ l : List ℚ, l.Chain' (· < ·) → ∀ c ∈ diffs l, 0 < c
  | [], _ => by simp [diffs]
  | [a], _ => by simp [diffs]
  | a :: b :: t, h => by
    rcases List.chain'_cons.mp h with ⟨hab, h'⟩
    intro c hc
    rw [show diffs (a :: b :: t) = (b - a) :: diffs (b :: t) from rfl] at hc
    rcases List.mem_cons.mp hc with h1 | h1
    · rw [h1]
      linarith
    · exact diffs_pos (b :: t) h' c h1

theorem seed_keeps_loss (cs : List ℚ) :
    ∀ (g l : ℚ), (∀ c ∈ cs, 0 < c) →
      (cs.foldl rsiSeedStep (g, l)).2 = l := by
  induction cs with
  | nil => simp
  | cons c cs ih =>
    intro g l hpos
    rw [List.foldl_cons, rsiSeedStep, if_pos (hpos c (List.mem_cons_self c cs))]
    exact ih (g + c) l fun d hd => hpos d (List.mem_cons_of_mem c hd)

theorem wilder_keeps_loss_zero (cs : List ℚ) (period : ℕ) :
    ∀ g : ℚ, (∀ c ∈ cs, 0 < c) →
      (cs.foldl (wilderStep period) (g, 0)).2 = 0 := by
  induction cs with
  | nil => simp
  | cons c cs ih =>
    intro g hpos
    rw [List.foldl_cons, wilderStep, if_pos (hpos c (List.mem_cons_self c cs))]
    simp only [zero_mul, zero_div]
    exact ih _ fun d hd => hpos d (List.mem_cons_of_mem c hd)

theorem rsiWalk_value_of_pos (pairs : List (ℚ × PriceBar)) (period : ℕ) :
    ∀ g : ℚ, (∀ q ∈ pairs, 0 < q.1) →
      ∀ pt ∈ rsiWalk period (g, 0) pairs, pt.value = 10000 / 101 := by
  induction pairs with
  | nil => simp [rsiWalk]
  | cons q rest ih =>
    intro g hpos pt hpt
    obtain ⟨c, bar⟩ := q
    have hc : 0 < c := hpos (c, bar) (List.mem_cons_self _ _)
    simp only [rsiWalk, wilderStep, if_pos hc, zero_mul, zero_div] at hpt
    rcases List.mem_cons.mp hpt with h1 | h1
    · rw [h1]
      norm_num
    · exact ih _ (fun d hd => hpos d (List.mem_cons_of_mem _ hd)) pt h1

/-- When the final Wilder-smoothed average loss is zero, `calculateRSI`
returns exactly 100. -/
theorem calculateRSI_loss_zero (data : List ℚ) (period : ℕ)
    (hlen : period + 1 ≤ data.length) (hz : (rsiAvgs data period).2 = 0) :
    calculateRSI data period = some 100 := by
  rw [calculateRSI, if_neg (by omega)]
  simp [hz]

/-- On strictly increasing data every change is positive, so the Wilder
average loss stays zero through both the seeding and the smoothing loops. -/
theorem rsiAvgs_loss_zero (data : List ℚ) (period : ℕ)
    (hpos : ∀ c ∈ diffs data, 0 < c) : (rsiAvgs data period).2 = 0 := by
  simp only [rsiAvgs]
  rw [seed_keeps_loss _ _ _ fun c hc => hpos c (List.mem_of_mem_take hc),
    zero_div]
  exact wilder_keeps_loss_zero _ period _
    fun c hc => hpos c (List.mem_of_mem_drop hc)

/-- C1 (amended): whenever the Wilder-smoothed average loss underlying the
point-in-time reading is zero, `calculateRSI` returns exactly 100 — in
particular on every strictly increasing close series of `period + 1` or
more closes.  `generateRSISeries`, however, substitutes the sentinel
`rs = 100` at such points, so every point it emits on a strictly increasing
series carries `100 - 100/101 = 10000/101 ≈ 99.0099`, not exactly 100. -/
theorem rsi_avgloss_zero_policy :
    (∀ (data : List ℚ) (period : ℕ), period + 1 ≤ data.length →
      (rsiAvgs data period).2 = 0 → calculateRSI data period = some 100) ∧
    (∀ (bars : List PriceBar) (period : ℕ), 0 < period →
      period + 1 ≤ bars.length →
      (bars.map (·.close)).Chain' (· < ·) →
      calculateRSI (bars.map (·.close)) period = some 100 ∧
      ∀ pt ∈ generateRSISeries bars period, pt.value = 10000 / 101) := by
  refine ⟨calculateRSI_loss_zero, ?_⟩
  intro bars period hp hlen hchain
  have hdp : ∀ c ∈ diffs (bars.map (·.close)), 0 < c := diffs_pos _ hchain
  have hlen' : period + 1 ≤ (bars.map (·.close)).length := by
    simpa using hlen
  refine ⟨calculateRSI_loss_zero _ _ hlen' (rsiAvgs_loss_zero _ _ hdp), ?_⟩
  intro pt hpt
  simp only [generateRSISeries, List.length_map] at hpt
  rw [if_neg (by omega)] at hpt
  rw [seed_keeps_loss _ _ _
    fun c hc => hdp c (List.mem_of_mem_take hc), zero_div] at hpt
  rcases List.mem_cons.mp hpt with h1 | h1
  · rw [h1]
    norm_num
  · refine rsiWalk_value_of_pos _ period _ ?_ pt h1
    intro q hq
    exact hdp q.1 (List.mem_of_mem_drop (List.of_mem_zip hq).1)

/-- Fifteen strictly increasing bars with closes `100, 101, ..., 114`. -/
def barsC1 : List PriceBar :=
  [⟨"b0", 100, 100, 100, 100, 0⟩, ⟨"b1", 101, 101, 101, 101, 0⟩,
    ⟨"b2", 102, 102, 102, 102, 0⟩, ⟨"b3", 103, 103, 103, 103, 0⟩,
    ⟨"b4", 104, 104, 104, 104, 0⟩, ⟨"b5", 105, 105, 105, 105, 0⟩,
    ⟨"b6", 106, 106, 106, 106, 0⟩, ⟨"b7", 107, 107, 107, 107, 0⟩,
    ⟨"b8", 108, 108, 108, 108, 0⟩, ⟨"b9", 109, 109, 109, 109, 0⟩,
    ⟨"b10", 110, 110, 110, 110, 0⟩, ⟨"b11", 111, 111, 111, 111, 0⟩,
    ⟨"b12", 112, 112, 112, 112, 0⟩, ⟨"b13", 113, 113, 113, 113, 0⟩,
    ⟨"b14", 114, 114, 114, 114, 0⟩]

/-- C1 witness: the 15-bar strictly increasing series satisfies every
hypothesis at the default period 14, for both conjuncts of the policy. -/
theorem rsi_avgloss_zero_policy_witness :
    calculateRSI [100, 101, 102, 103, 104, 105, 106, 107, 108, 109, 110,
      111, 112, 113, 114] 14 = some 100 ∧
    (calculateRSI (barsC1.map (·.close)) 14 = some 100 ∧
      ∀ pt ∈ generateRSISeries barsC1 14, pt.value = 10000 / 101) :=
  ⟨rsi_avgloss_zero_policy.1
      [100, 101, 102, 103, 104, 105, 106, 107, 108, 109, 110, 111, 112,
        113, 114] 14 (by norm_num)
      (by norm_num [rsiAvgs, diffs, rsiSeedStep, wilderStep,
        List.zip_cons_cons]),
    rsi_avgloss_zero_policy.2 barsC1 14 (by norm_num)
      (by norm_num [barsC1])
      (by norm_num [barsC1, List.chain'_cons])⟩

/-- C1 counterexample: on the same strictly increasing series the single
point emitted by `generateRSISeries` carries `10000/101`, not the exact 100
the claim asserts for the series generator. -/
theorem rsi_series_avgloss_zero_counterexample :
    (generateRSISeries barsC1 14).map (·.value) = [10000 / 101] ∧
    (10000 / 101 : ℚ) ≠ 100 := by
  refine ⟨?_, by norm_num⟩
  norm_num [generateRSISeries, rsiWalk, diffs, rsiSeedStep, wilderStep,
    dateOf, barsC1]

/-! ## C8: rolling metrics agree with the specified form -/

theorem foldl_add_eq_sum (l : List ℚ) : l.foldl (· + ·) 0 = l.sum :=
  sumList_eq_sum l

/-- C8: `calculateRollingMetrics` coincides with the specification-side
`rollingMetricsSpec` for every equity curve, window, and square-root: empty
below the window, and otherwise one point per index `i ≥ window` whose
volatility is the annualised population standard deviation of the trailing
returns and whose Sharpe ratio is guarded to `0` at zero volatility.  The
only hypothesis is that the square root of a nonnegative number is
nonnegative, which `Math.sqrt` satisfies. -/
theorem rolling_metrics_matches_spec (sq : ℚ → ℚ)
    (hsq : ∀ x : ℚ, 0 ≤ x → 0 ≤ sq x) (equityCurve : List EquityPoint)
    (window : ℕ) :
    calculateRollingMetrics sq equityCurve window =
      rollingMetricsSpec sq equityCurve window := by
  rw [calculateRollingMetrics, rollingMetricsSpec]
  by_cases h : equityCurve.length < window
  · rw [if_pos h, if_pos h]
  · rw [if_neg h, if_neg h]
    apply List.map_congr_left
    intro i _
    dsimp only
    set slice := (equityCurve.drop (i - window)).take window with hslice
    have hret : ((slice.drop 1).zip slice).map
        (fun p => (p.1.equity - p.2.equity) / p.2.equity) =
        List.zipWith (fun next prev => (next - prev) / prev)
          ((slice.map (·.equity)).tail) (slice.map (·.equity)) := by
      rw [← List.map_tail, List.zipWith_map_left, List.zipWith_map_right,
        List.drop_one, List.zip_eq_zipWith, List.map_zipWith]
    set returns := List.zipWith (fun next prev => (next - prev) / prev)
      ((slice.map (·.equity)).tail) (slice.map (·.equity)) with hreturns
    rw [hret]
    have hmean : returns.foldl (· + ·) 0 / (returns.length : ℚ) =
        returns.sum / (returns.length : ℚ) := by
      rw [foldl_add_eq_sum]
    rw [hmean]
    set mean := returns.sum / (returns.length : ℚ) with hmeandef
    have hvar : returns.foldl (fun s r => s + (r - mean) ^ 2) 0 /
        (returns.length : ℚ) =
        ((returns.map fun r => (r - mean) ^ 2).sum) / (returns.length : ℚ) := by
      rw [foldl_add_map (fun r => (r - mean) ^ 2) returns 0, zero_add]
    rw [hvar]
    set vol := sq (((returns.map fun r => (r - mean) ^ 2).sum) /
      (returns.length : ℚ)) * sq 252 * 100 with hvol
    have hvol_nonneg : 0 ≤ vol := by
      have hvnn : 0 ≤ ((returns.map fun r => (r - mean) ^ 2).sum) /
          (returns.length : ℚ) := by
        apply div_nonneg
        · apply List.sum_nonneg
          intro x hx
          rcases List.mem_map.mp hx with ⟨r, _, rfl⟩
          positivity
        · exact Nat.cast_nonneg _
      exact mul_nonneg (mul_nonneg (hsq _ hvnn) (hsq 252 (by norm_num)))
        (by norm_num)
    have hsh : (if 0 < vol then mean * 252 / (vol / 100) else 0) =
        (if vol = 0 then 0 else mean * 252 / (vol / 100)) := by
      rcases eq_or_lt_of_le hvol_nonneg with h0 | h0
      · rw [if_neg (by rw [← h0]; exact lt_irrefl 0), if_pos h0.symm]
      · rw [if_pos h0, if_neg (ne_of_gt h0)]
    rw [hsh]

/-- C8 witness: the identity square root satisfies the nonnegativity
hypothesis, instantiated on a concrete four-point curve with window 2. -/
theorem rolling_metrics_matches_spec_witness :
    calculateRollingMetrics id
      [⟨"r0", 100, none, none⟩, ⟨"r1", 110, none, none⟩,
        ⟨"r2", 121, none, none⟩, ⟨"r3", 133, none, none⟩] 2 =
    rollingMetricsSpec id
      [⟨"r0", 100, none, none⟩, ⟨"r1", 110, none, none⟩,
        ⟨"r2", 121, none, none⟩, ⟨"r3", 133, none, none⟩] 2 :=
  rolling_metrics_matches_spec id (fun _ hx => hx) _ 2

/-! ## C9: trade histogram coverage -/

theorem sum_map_add_nat {α : Type} (l : List α) (f g : α → ℕ) :
    (l.map fun a => f a + g a).sum = (l.map f).sum + (l.map g).sum := by
  induction l with
  | nil => simp
  | cons a l ih =>
    simp only [List.map_cons, List.sum_cons, ih]
    omega

theorem getD_map_range {α : Type} (f : ℕ → α) (d : α) (n k : ℕ) (hk : k < n) :
    ((List.range n).map f).getD k d = f k := by
  rw [List.range_eq_range', getD_map_range' f d n 0 k hk, Nat.zero_add]

/-- Each value at least `lo` lands in exactly one of the first `n` half-open
bins of width `b` when it is below `lo + n*b`, and in none otherwise. -/
theorem binhit_sum (x lo b : ℚ) (hb : 0 < b) (hlo : lo ≤ x) :
    ∀ n : ℕ, ((List.range n).map fun i : ℕ =>
      if lo + (i : ℚ) * b ≤ x ∧ x < lo + (i : ℚ) * b + b then (1 : ℕ)
      else 0).sum = if x < lo + (n : ℚ) * b then 1 else 0
  | 0 => by
    simp only [List.range_zero, List.map_nil, List.sum_nil, Nat.cast_zero,
      zero_mul, add_zero]
    rw [if_neg (not_lt.mpr hlo)]
  | n + 1 => by
    rw [List.range_succ, List.map_append, List.sum_append,
      binhit_sum x lo b hb hlo n]
    simp only [List.map_cons, List.map_nil, List.sum_cons, List.sum_nil,
      add_zero]
    have hcast : lo + ((n : ℕ) + 1 : ℚ) * b = lo + (n : ℚ) * b + b := by
      ring
    by_cases h1 : x < lo + (n : ℚ) * b
    · rw [if_pos h1, if_neg (by rintro ⟨h2, _⟩; linarith),
        if_pos (by push_cast; rw [hcast]; linarith)]
    · have h1' : lo + (n : ℚ) * b ≤ x := not_lt.mp h1
      rw [if_neg h1]
      by_cases h2 : x < lo + (n : ℚ) * b + b
      · rw [if_pos ⟨h1', h2⟩, if_pos (by push_cast; rw [hcast]; exact h2)]
      · rw [if_neg (fun hcon => h2 hcon.2),
          if_neg (by push_cast; rw [hcast]; exact h2)]

/-- Summing the 20 half-open bin counts over a value list bounded by
`[lo, lo + 20b]` counts exactly the values strictly below the upper end. -/
theorem bins_count_sum (pnls : List ℚ) (lo b : ℚ) (hb : 0 < b)
    (hmem : ∀ p ∈ pnls, lo ≤ p ∧ p ≤ lo + 20 * b) :
    ((List.range 20).map fun i : ℕ =>
      (pnls.filter fun p => decide (lo + (i : ℚ) * b ≤ p) &&
        decide (p < lo + (i : ℚ) * b + b)).length).sum
      = (pnls.filter fun p => decide (p < lo + 20 * b)).length := by
  induction pnls with
  | nil => simp
  | cons x l ih =>
    have hx := hmem x (List.mem_cons_self x l)
    have hlen : ∀ (P : Prop) (inst : Decidable P) (ys : List ℚ),
        (if P then x :: ys else ys).length =
          (if P then 1 else 0) + ys.length := by
      intro P inst ys
      split <;> simp [Nat.add_comm]
    simp only [List.filter_cons, Bool.and_eq_true, decide_eq_true_eq, hlen]
    rw [sum_map_add_nat]
    rw [ih fun p hp => hmem p (List.mem_cons_of_mem x hp)]
    rw [binhit_sum x lo b hb hx.1 20]
    push_cast
    omega

/-- C9 (amended): `analyzeTradeDistribution` builds exactly 20 bins of width
`(max - min)/20`, each tagged positive exactly when its start is `≥ 0`, and
each bin counts the pnl values in its half-open interval
`[start, start + binSize)` — so, because the top end is excluded, the bin
counts sum to the number of closed trades with `pnlPercent` strictly below
the maximum, not to all of them: trades at the maximum fall outside every
bin (see the counterexample). -/
theorem trade_bins_cover (trades : List Trade)
    (hne : closedTradesOf trades ≠ [])
    (hlt : minPnl trades < maxPnl trades) :
    (analyzeTradeDistribution trades).bins.length = 20 ∧
    (∀ k, k < 20 →
      ((analyzeTradeDistribution trades).bins.getD k default).isPositive =
        decide (0 ≤ minPnl trades + (k : ℚ) * binSizeOf trades)) ∧
    ((analyzeTradeDistribution trades).bins.map (·.count)).sum =
      ((pnlsOf trades).filter
        fun p => decide (p < maxPnl trades)).length := by
  have hemp : ¬ ((closedTradesOf trades).isEmpty = true) := by
    simp [List.isEmpty_iff, hne]
  have hb : 0 < binSizeOf trades :=
    div_pos (sub_pos.mpr hlt) (by norm_num)
  have hmx : minPnl trades + 20 * binSizeOf trades = maxPnl trades := by
    rw [binSizeOf]
    ring
  rw [analyzeTradeDistribution, if_neg hemp]
  refine ⟨by simp, ?_, ?_⟩
  · intro k hk
    rw [getD_map_range _ _ _ k hk]
  · simp only [List.map_map]
    have hcomp : ((fun b : TradeBin => b.count) ∘ fun i : ℕ =>
        ({ rangeStart := minPnl trades + (i : ℚ) * binSizeOf trades
           count := ((pnlsOf trades).filter fun p =>
             decide (minPnl trades + (i : ℚ) * binSizeOf trades ≤ p) &&
             decide (p < minPnl trades + (i : ℚ) * binSizeOf trades +
               binSizeOf trades)).length
           isPositive := decide
             (0 ≤ minPnl trades + (i : ℚ) * binSizeOf trades) } : TradeBin))
        = fun i : ℕ => ((pnlsOf trades).filter fun p =>
            decide (minPnl trades + (i : ℚ) * binSizeOf trades ≤ p) &&
            decide (p < minPnl trades + (i : ℚ) * binSizeOf trades +
              binSizeOf trades)).length := rfl
    rw [hcomp, bins_count_sum (pnlsOf trades) (minPnl trades)
      (binSizeOf trades) hb ?_, hmx]
    intro p hp
    refine ⟨minList_le _ p hp, ?_⟩
    rw [hmx]
    exact le_maxList _ p hp

/-- A closed long trade with the given id and `pnlPercent`. -/
def mkClosedTrade (n : String) (p : ℚ) : Trade where
  id := n
  symbol := "AAPL"
  entryDate := "2023-01-01"
  entryPrice := 100
  exitDate := some "2023-01-10"
  exitPrice := some 110
  quantity := 10
  side := .long
  pnl := some p
  pnlPercent := some p
  status := .closed

/-- Three closed trades with pnl percentages 0, 5 and 10. -/
def tradesC9 : List Trade :=
  [mkClosedTrade "1" 0, mkClosedTrade "2" 5, mkClosedTrade "3" 10]

/-- Two closed trades with pnl percentages 0 and 10. -/
def tradesC9b : List Trade :=
  [mkClosedTrade "1" 0, mkClosedTrade "2" 10]

/-- C9 witness: three closed trades spanning `[0, 10]` satisfy both
hypotheses. -/
theorem trade_bins_cover_witness :
    (analyzeTradeDistribution tradesC9).bins.length = 20 ∧
    (∀ k, k < 20 →
      ((analyzeTradeDistribution tradesC9).bins.getD k default).isPositive =
        decide (0 ≤ minPnl tradesC9 + (k : ℚ) * binSizeOf tradesC9)) ∧
    ((analyzeTradeDistribution tradesC9).bins.map (·.count)).sum =
      ((pnlsOf tradesC9).filter
        fun p => decide (p < maxPnl tradesC9)).length :=
  trade_bins_cover tradesC9
    (by norm_num [closedTradesOf, tradesC9, mkClosedTrade,
      List.cons_ne_nil])
    (by norm_num [minPnl, maxPnl, minList, maxList, pnlsOf, closedTradesOf,
      tradesC9, mkClosedTrade, max_def, min_def])

/-- C9 counterexample: with closed trades at pnl percentages 0 and 10 the
bin counts sum to 1, not to the number (2) of closed trades — the trade at
the maximum is counted by no bin. -/
theorem trade_bins_sum_counterexample :
    (closedTradesOf tradesC9b).length = 2 ∧
    ((analyzeTradeDistribution tradesC9b).bins.map (·.count)).sum = 1 ∧
    (1 : ℕ) ≠ 2 := by
  refine ⟨?_, ?_, by norm_num⟩
  · norm_num [closedTradesOf, tradesC9b, mkClosedTrade]
  · norm_num [analyzeTradeDistribution, closedTradesOf, pnlsOf, minPnl,
      maxPnl, minList, maxList, binSizeOf, tradesC9b, mkClosedTrade,
      max_def, min_def, List.range_succ]

end Argent
